import Mathlib

/-!
Verification of the unit-checked scalar wrapper of PutkaRTS
(`src/util/Scalar.hpp`).

`Scalar<U>` wraps one `double` magnitude and a compile-time unit tag `U`.
The unit algebra itself lives in `SIUnit.hpp`, which is not among the
excerpted sources; it is modelled here from the specification (a unit is a
fixed-length vector of integer exponents with component-wise operations).

The `double` magnitude is modelled by `DVal`: an exact rational for finite
values, plus distinct negative zero, the two infinities and a single NaN.
This idealises IEEE arithmetic in two documented ways: finite arithmetic is
exact (no rounding or overflow), and a zero *result* of an arithmetic
operation is always the positive zero (`DVal.negZero` models only the
literal `-0.0` and its direct uses).
-/

namespace PutkaRTS

/-- Modelled from the spec: `SIUnit.hpp` is missing from the sources.  The
spec describes a Unit as "an immutable, purely type-level tuple of signed
integer exponents, one per recognized base dimension", the number of base
dimensions being a fixed parameter left to the integrator.  We model a unit
over `n` base dimensions as a function `Fin n → ℤ`. -/
abbrev SIUnit (n : ℕ) := Fin n → ℤ

/-- The dimensionless unit: all exponents zero (`SIUnit::Unit<>`). -/
def SIUnit.dimensionless (n : ℕ) : SIUnit n := fun _ => 0

/-- Modelled from the spec: `Add(U1, U2)` is the component-wise sum of
exponents (the C++ `SIUnitAdd(U1, U2)`), used for multiplication. -/
def SIUnitAdd {n : ℕ} (u v : SIUnit n) : SIUnit n := fun i => u i + v i

/-- Modelled from the spec: `Subtract(U1, U2)` is the component-wise
difference (the C++ `SIUnitSub(U1, U2)`), used for division. -/
def SIUnitSub {n : ℕ} (u v : SIUnit n) : SIUnit n := fun i => u i - v i

/-- Modelled from the spec: `ScaleUp(U, k)` multiplies every exponent by
`k` (the C++ `SIUnitMul(U, k)`). -/
def SIUnitMul {n : ℕ} (u : SIUnit n) (k : ℤ) : SIUnit n := fun i => u i * k

/-- Modelled from the spec: `ScaleDown(U, k)` divides every exponent by
`k`, "defined only if every exponent of U is exactly divisible by n".  The
quotient function is total here; the build-time definedness condition is
expressed by the hypothesis `SIUnitMul (SIUnitDiv u k) k = u` that the
`sqrt` embedding below demands (this is exactly the template unification
the C++ `_sqrtHelper` performs). -/
def SIUnitDiv {n : ℕ} (u : SIUnit n) (k : ℤ) : SIUnit n := fun i => u i / k

/-- Model of a C++ `double` at the granularity the claims need:
an exact rational for finite values (`+0.0` is `fin 0`), a distinct
negative zero, the two infinities and one NaN. -/
inductive DVal : Type where
  | fin (q : ℚ)
  | negZero
  | posInf
  | negInf
  | nan
  deriving DecidableEq

namespace DVal

/-- The rational magnitude of a finite `DVal` (junk `0` elsewhere;
only ever used on finite values). -/
def toRat : DVal → ℚ
  | .fin q => q
  | _ => 0

/-- Finite (including both zeros)? -/
def isFinite : DVal → Bool
  | .fin _ => true
  | .negZero => true
  | _ => false

/-- Zero magnitude (either `+0.0` or `-0.0`)? -/
def isZeroB (x : DVal) : Bool := x.isFinite && decide (x.toRat = 0)

/-- Strictly negative (finite negative or `-∞`)?  `-0.0` is not negative
for comparison purposes. -/
def signNeg : DVal → Bool
  | .fin q => decide (q < 0)
  | .negInf => true
  | _ => false

/-- Negative in the sign-bit sense used by division by zero: `-0.0`
counts as negative here. -/
def divSignNeg : DVal → Bool
  | .fin q => decide (q < 0)
  | .negZero => true
  | .negInf => true
  | _ => false

/-- IEEE comparison: `none` when either operand is NaN (unordered),
otherwise the ordering, with `-0.0 = +0.0`. -/
def cmp : DVal → DVal → Option Ordering
  | .nan, _ => none
  | _, .nan => none
  | .negInf, .negInf => some Ordering.eq
  | .negInf, _ => some Ordering.lt
  | _, .negInf => some Ordering.gt
  | .posInf, .posInf => some Ordering.eq
  | .posInf, _ => some Ordering.gt
  | _, .posInf => some Ordering.lt
  | x, y =>
    some (if x.toRat < y.toRat then Ordering.lt
          else if y.toRat < x.toRat then Ordering.gt else Ordering.eq)

/-- IEEE `<` on doubles (false on NaN). -/
def ltB (x y : DVal) : Bool := decide (x.cmp y = some Ordering.lt)

/-- IEEE `>` on doubles (false on NaN). -/
def gtB (x y : DVal) : Bool := decide (x.cmp y = some Ordering.gt)

/-- IEEE `<=` on doubles (false on NaN). -/
def leB (x y : DVal) : Bool :=
  decide (x.cmp y = some Ordering.lt ∨ x.cmp y = some Ordering.eq)

/-- IEEE `>=` on doubles (false on NaN). -/
def geB (x y : DVal) : Bool :=
  decide (x.cmp y = some Ordering.gt ∨ x.cmp y = some Ordering.eq)

/-- IEEE `==` on doubles (false on NaN; `-0.0 == +0.0`). -/
def eqB (x y : DVal) : Bool := decide (x.cmp y = some Ordering.eq)

/-- IEEE `!=` on doubles: unordered-or-unequal, i.e. the negation of
`==` (true when either operand is NaN). -/
def neB (x y : DVal) : Bool := !(x.eqB y)

/-- C truthiness of a `double` (used by `operator BoolDummyType` and
`operator!`): compares unequal to zero; NaN is truthy, `-0.0` is falsy. -/
def toBool (x : DVal) : Bool := x.neB (.fin 0)

/-- IEEE addition: NaN propagates, `∞ + (-∞) = NaN`, an infinity
dominates a finite value, finite addition is exact. -/
def add : DVal → DVal → DVal
  | .nan, _ => .nan
  | _, .nan => .nan
  | .posInf, .negInf => .nan
  | .negInf, .posInf => .nan
  | .posInf, _ => .posInf
  | _, .posInf => .posInf
  | .negInf, _ => .negInf
  | _, .negInf => .negInf
  | x, y => .fin (x.toRat + y.toRat)

/-- IEEE subtraction (same idealisation as `add`). -/
def sub : DVal → DVal → DVal
  | .nan, _ => .nan
  | _, .nan => .nan
  | .posInf, .posInf => .nan
  | .negInf, .negInf => .nan
  | .posInf, _ => .posInf
  | .negInf, _ => .negInf
  | _, .posInf => .negInf
  | _, .negInf => .posInf
  | x, y => .fin (x.toRat - y.toRat)

/-- IEEE multiplication: NaN propagates, `∞ * 0 = NaN`, infinities
multiply by sign, finite multiplication is exact. -/
def mul : DVal → DVal → DVal
  | .nan, _ => .nan
  | _, .nan => .nan
  | .posInf, .posInf => .posInf
  | .posInf, .negInf => .negInf
  | .negInf, .posInf => .negInf
  | .negInf, .negInf => .posInf
  | .posInf, y => if y.isZeroB then .nan else if y.signNeg then .negInf else .posInf
  | .negInf, y => if y.isZeroB then .nan else if y.signNeg then .posInf else .negInf
  | x, .posInf => if x.isZeroB then .nan else if x.signNeg then .negInf else .posInf
  | x, .negInf => if x.isZeroB then .nan else if x.signNeg then .posInf else .negInf
  | x, y => .fin (x.toRat * y.toRat)

/-- IEEE division: NaN propagates, `∞ / ∞ = NaN`, `0 / 0 = NaN`, a
nonzero finite value divided by a (signed) zero gives a signed infinity,
finite division is exact. -/
def div : DVal → DVal → DVal
  | .nan, _ => .nan
  | _, .nan => .nan
  | .posInf, .posInf => .nan
  | .posInf, .negInf => .nan
  | .negInf, .posInf => .nan
  | .negInf, .negInf => .nan
  | .posInf, y => if y.divSignNeg then .negInf else .posInf
  | .negInf, y => if y.divSignNeg then .posInf else .negInf
  | _, .posInf => .fin 0
  | _, .negInf => .fin 0
  | x, y =>
    if y.isZeroB then
      (if x.isZeroB then .nan
       else if x.signNeg != y.divSignNeg then .negInf else .posInf)
    else .fin (x.toRat / y.toRat)

/-- Truncation of a rational toward zero (what C's integer conversion in
`fmod`'s specification does): `num.tdiv den`. -/
def truncQ (q : ℚ) : ℤ := q.num.tdiv q.den

/-- The value of C's `fmod` on finite operands with a nonzero divisor:
`x - trunc(x / y) * y`. -/
def fmodQ (x y : ℚ) : ℚ := x - truncQ (x / y) * y

/-- IEEE `fmod`: NaN propagates, an infinite dividend or zero divisor
gives NaN, an infinite divisor returns the dividend, `fmod(-0, y) = -0`,
and finite operands use `fmodQ`. -/
def fmod : DVal → DVal → DVal
  | .nan, _ => .nan
  | _, .nan => .nan
  | .posInf, _ => .nan
  | .negInf, _ => .nan
  | x, .posInf => x
  | x, .negInf => x
  | .negZero, y => if y.isZeroB then .nan else .negZero
  | .fin a, y => if y.isZeroB then .nan else .fin (fmodQ a y.toRat)

/-- Exact square root of a nonnegative rational when it is a perfect
square of a rational (the only case the claims exercise; IEEE `sqrt` is
exact there too).  On other rationals this is the `Nat.sqrt` floor
approximation. -/
def ratSqrt (q : ℚ) : ℚ := (Nat.sqrt q.num.toNat : ℚ) / (Nat.sqrt q.den : ℚ)

/-- Model of `std::sqrt` on doubles: `sqrt(NaN) = NaN`, `sqrt(+∞) = +∞`,
`sqrt` of a negative value (including `-∞`) is NaN, `sqrt(-0.0) = -0.0`,
and nonnegative finite values use `ratSqrt`. -/
def sqrtD : DVal → DVal
  | .nan => .nan
  | .posInf => .posInf
  | .negInf => .nan
  | .negZero => .negZero
  | .fin q => if q < 0 then .nan else .fin (ratSqrt q)

/-- IEEE negation: flips the sign of zero as well. -/
def neg : DVal → DVal
  | .nan => .nan
  | .posInf => .negInf
  | .negInf => .posInf
  | .negZero => .fin 0
  | .fin q => if q = 0 then .negZero else .fin (-q)

end DVal

/-- The scalar wrapper `Scalar<U1>` of Scalar.hpp: one `double` magnitude
(`T value`), the unit carried by the type.  The structure constructor is
the converting constructor `Scalar(T _val)`. -/
structure Scalar {n : ℕ} (U : SIUnit n) : Type where
  value : DVal
  deriving DecidableEq

namespace Scalar

variable {n : ℕ} {U : SIUnit n}

/-- The default constructor `Scalar() : value(0)`. -/
def mkDefault : Scalar U := ⟨.fin 0⟩

/-- `static Type zero() { return Type(0); }` -/
def zero : Scalar U := ⟨.fin 0⟩

/-- `static Type nan()`: quiet NaN. -/
def nan : Scalar U := ⟨.nan⟩

/-- `static Type infP()`: positive infinity. -/
def infP : Scalar U := ⟨.posInf⟩

/-- `static Type infN()`: negative infinity. -/
def infN : Scalar U := ⟨.negInf⟩

/-- `static Type inf() { return infP(); }` -/
def inf : Scalar U := infP

/-- `static Type inf(Type dir) { return dir.value < 0 ? infN() : infP(); }`
(the sign-dispatch overload of `inf`). -/
def infDir (dir : Scalar U) : Scalar U :=
  if dir.value.ltB (.fin 0) then infN else infP

/-- The exact value of the source literal
`3.1415926535897932384626433832795028841971693993751` (the cast to
`double` is idealised away, as for every other finite literal). -/
def piLit : ℚ := 3.1415926535897932384626433832795028841971693993751

/-- `static Type pi()`: note that in the source this static member exists
in *every* instantiation `Scalar<U1>`, so it is defined here at every
unit. -/
def pi : Scalar U := ⟨.fin piLit⟩

/-- `bool isNaN() const { return value != value; }` -/
def isNaN (a : Scalar U) : Bool := a.value.neB a.value

/-- `bool isInf() const { return value == infP().value || value == infN().value; }` -/
def isInf (a : Scalar U) : Bool := a.value.eqB .posInf || a.value.eqB .negInf

/-- `bool isZero() const { return value == 0; }` -/
def isZero (a : Scalar U) : Bool := a.value.eqB (.fin 0)

/-- `Scalar<> strip() const`: same magnitude, dimensionless unit. -/
def strip (a : Scalar U) : Scalar (SIUnit.dimensionless n) := ⟨a.value⟩

/-- Unary `operator-`. -/
def negS (a : Scalar U) : Scalar U := ⟨a.value.neg⟩

/-- `operator BoolDummyType`: the conversion used in conditions; non-null
exactly when `value` is truthy as a C `double`. -/
def toBool (a : Scalar U) : Bool := a.value.toBool

/-- `bool operator ! () const { return !value; }` -/
def notB (a : Scalar U) : Bool := !a.value.toBool

/-- `operator <` (both operands of the same unit `U`). -/
def lt (a b : Scalar U) : Bool := a.value.ltB b.value

/-- `operator >` (both operands of the same unit `U`). -/
def gt (a b : Scalar U) : Bool := a.value.gtB b.value

/-- `operator <=` (both operands of the same unit `U`). -/
def le (a b : Scalar U) : Bool := a.value.leB b.value

/-- `operator >=` (both operands of the same unit `U`). -/
def ge (a b : Scalar U) : Bool := a.value.geB b.value

/-- `operator ==` (both operands of the same unit `U`). -/
def eq (a b : Scalar U) : Bool := a.value.eqB b.value

/-- `operator !=` (both operands of the same unit `U`). -/
def ne (a b : Scalar U) : Bool := a.value.neB b.value

/-- `operator +` (both operands of the same unit `U`). -/
def add (a b : Scalar U) : Scalar U := ⟨a.value.add b.value⟩

/-- Binary `operator -` (both operands of the same unit `U`). -/
def sub (a b : Scalar U) : Scalar U := ⟨a.value.sub b.value⟩

/-- `operator *`: the only binary operator (with `/`) templated over the
right operand's unit; the result unit is `SIUnitAdd(U1, U2)`. -/
def mul {V : SIUnit n} (a : Scalar U) (b : Scalar V) : Scalar (SIUnitAdd U V) :=
  ⟨a.value.mul b.value⟩

/-- `operator /`: templated over the right operand's unit; the result
unit is `SIUnitSub(U1, U2)`. -/
def div {V : SIUnit n} (a : Scalar U) (b : Scalar V) : Scalar (SIUnitSub U V) :=
  ⟨a.value.div b.value⟩

/-- `pow2() { return (*this) * (*this); }`: result unit `SIUnitAdd(U1, U1)`. -/
def pow2 (a : Scalar U) : Scalar (SIUnitAdd U U) := a.mul a

/-- `abs() { return Type(value < 0 ? -value : value); }` -/
def abs (a : Scalar U) : Scalar U :=
  ⟨if a.value.ltB (.fin 0) then a.value.neg else a.value⟩

/-- `mod(Type divisor) { return Type(fmod(value, divisor.value)); }`
(divisor of the same unit `U`; unit unchanged). -/
def mod (a divisor : Scalar U) : Scalar U := ⟨a.value.fmod divisor.value⟩

end Scalar

/-- `_sqrtHelper<U1>(Scalar<SIUnitMul(U1, 2)> const& x)`: accepts only an
argument whose unit is twice its result unit. -/
def sqrtHelper {n : ℕ} {V : SIUnit n} (x : Scalar (SIUnitMul V 2)) : Scalar V :=
  ⟨x.value.sqrtD⟩

/-- The free function `sqrt(Scalar<U1> const& x)`: returns
`Scalar<SIUnitDiv(U1, 2)>` via `_sqrtHelper<SIUnitDiv(U1, 2)>(x)`.  The
call compiles only when `SIUnitMul(SIUnitDiv(U1, 2), 2) = U1`, i.e. every
exponent of `U1` is even; that template unification is the hypothesis
`h`. -/
def sqrtS {n : ℕ} {U : SIUnit n} (x : Scalar U)
    (h : SIUnitMul (SIUnitDiv U 2) 2 = U) : Scalar (SIUnitDiv U 2) :=
  sqrtHelper (h.symm ▸ x)

/-- Unit typing of `operator+`, transcribed from its member signature
`Type operator + (Type const& t)` where `Type = Scalar<U1>`: a right
operand `Scalar<U2>` is accepted by overload resolution only when
`U2 = U1` (no implicit conversion between distinct `Scalar`
instantiations exists), and the result unit is `U1`. -/
def addAccepts {n : ℕ} (u v : SIUnit n) : Option (SIUnit n) :=
  if v = u then some u else none

/-- Unit typing of binary `operator-`, signature `Type operator - (Type const&)`:
same-unit only. -/
def subAccepts {n : ℕ} (u v : SIUnit n) : Option (SIUnit n) :=
  if v = u then some u else none

/-- Unit typing of the six comparison operators `< > <= >= == !=`, each
with signature `bool operator ∘ (Type const&)`: they accept a right
operand only of the same unit. -/
def cmpAccepts {n : ℕ} (u v : SIUnit n) : Bool := decide (v = u)

/-- Unit typing of `mod`, signature `Type mod(Type divisor)`: same-unit
only, result unit unchanged. -/
def modAccepts {n : ℕ} (u v : SIUnit n) : Option (SIUnit n) :=
  if v = u then some u else none

/-- Unit typing of `operator*`, signature
`template <typename U2> Scalar<SIUnitAdd(U1, U2)> operator * (Scalar<U2> const&)`:
every unit pair is accepted. -/
def mulAccepts {n : ℕ} (u v : SIUnit n) : Option (SIUnit n) :=
  some (SIUnitAdd u v)

/-- Unit typing of `operator/`, signature
`template <typename U2> Scalar<SIUnitSub(U1, U2)> operator / (Scalar<U2> const&)`:
every unit pair is accepted. -/
def divAccepts {n : ℕ} (u v : SIUnit n) : Option (SIUnit n) :=
  some (SIUnitSub u v)

/-- A concrete length unit over the three base dimensions
(length, mass, time), for witnesses. -/
def lenU : SIUnit 3 := ![1, 0, 0]

/-- A concrete time unit over the three base dimensions, for witnesses. -/
def timU : SIUnit 3 := ![0, 0, 1]

/-- A concrete even-exponent unit (area) over the three base dimensions,
for witnesses. -/
def areaU : SIUnit 3 := ![2, 0, 0]

/-! ### Helper lemmas about truncation, `fmod` and `ratSqrt` -/

/-- On a nonnegative rational, truncation toward zero is the floor. -/
theorem truncQ_le (q : ℚ) (h : 0 ≤ q) : (DVal.truncQ q : ℚ) ≤ q := by
  have hn : 0 ≤ q.num := Rat.num_nonneg.mpr h
  have hd : (0 : ℤ) ≤ (q.den : ℤ) := Int.natCast_nonneg _
  have : DVal.truncQ q = ⌊q⌋ := by
    rw [DVal.truncQ, Int.tdiv_eq_ediv hn hd, Rat.floor_def]
  rw [this]
  exact Int.floor_le q

/-- Truncation toward zero commutes with negation. -/
theorem truncQ_neg (q : ℚ) : DVal.truncQ (-q) = -DVal.truncQ q := by
  simp [DVal.truncQ, Rat.neg_num, Rat.neg_den, Int.neg_tdiv]

/-- On a nonpositive rational, truncation toward zero is at least the
value. -/
theorem le_truncQ (q : ℚ) (h : q ≤ 0) : q ≤ (DVal.truncQ q : ℚ) := by
  have h1 : (DVal.truncQ (-q) : ℚ) ≤ -q := truncQ_le (-q) (by linarith)
  rw [truncQ_neg] at h1
  push_cast at h1
  linarith

/-- The `fmod` remainder of a nonnegative dividend is nonnegative. -/
theorem fmodQ_nonneg (x y : ℚ) (hy : y ≠ 0) (hx : 0 ≤ x) :
    0 ≤ DVal.fmodQ x y := by
  rcases lt_or_gt_of_ne hy with hneg | hpos
  · have hq : x / y ≤ 0 := div_nonpos_iff.mpr (Or.inl ⟨hx, hneg.le⟩)
    have h1 : x / y ≤ (DVal.truncQ (x / y) : ℚ) := le_truncQ _ hq
    have h2 : (DVal.truncQ (x / y) : ℚ) * y ≤ x := (div_le_iff_of_neg hneg).mp h1
    have : 0 ≤ x - (DVal.truncQ (x / y) : ℚ) * y := by linarith
    simpa [DVal.fmodQ] using this
  · have h1 : (DVal.truncQ (x / y) : ℚ) ≤ x / y := truncQ_le _ (div_nonneg hx hpos.le)
    have h2 : (DVal.truncQ (x / y) : ℚ) * y ≤ x := (le_div_iff₀ hpos).mp h1
    have : 0 ≤ x - (DVal.truncQ (x / y) : ℚ) * y := by linarith
    simpa [DVal.fmodQ] using this

/-- `fmod` is odd in the dividend. -/
theorem fmodQ_neg_left (x y : ℚ) : DVal.fmodQ (-x) y = -DVal.fmodQ x y := by
  simp only [DVal.fmodQ, neg_div, truncQ_neg]
  push_cast
  ring

/-- The `fmod` remainder of a nonpositive dividend is nonpositive: the
sign of the result follows the dividend. -/
theorem fmodQ_nonpos (x y : ℚ) (hy : y ≠ 0) (hx : x ≤ 0) :
    DVal.fmodQ x y ≤ 0 := by
  have h1 : 0 ≤ DVal.fmodQ (-x) y := fmodQ_nonneg (-x) y hy (by linarith)
  rw [fmodQ_neg_left] at h1
  linarith

/-- On a nonpositive rational, truncation toward zero is the ceiling. -/
theorem truncQ_eq_ceil (q : ℚ) (h : q ≤ 0) : DVal.truncQ q = ⌈q⌉ := by
  have hn : 0 ≤ (-q).num := Rat.num_nonneg.mpr (by linarith)
  have hd : (0 : ℤ) ≤ ((-q).den : ℤ) := Int.natCast_nonneg _
  have h1 : DVal.truncQ (-q) = ⌊-q⌋ := by
    rw [DVal.truncQ, Int.tdiv_eq_ediv hn hd, Rat.floor_def]
  have h2 : DVal.truncQ q = -DVal.truncQ (-q) := by rw [truncQ_neg, neg_neg]
  rw [h2, h1, Int.floor_neg, neg_neg]

/-- The source's concrete case: `fmod(-7, 3) = -1` (sign follows the
dividend, not the divisor). -/
theorem fmodQ_neg_seven_three : DVal.fmodQ (-7) 3 = -1 := by
  have hq : ((-7 : ℚ) / 3) ≤ 0 := by norm_num
  have hceil : ⌈((-7 : ℚ) / 3)⌉ = -2 := by
    rw [Int.ceil_eq_iff]
    constructor <;> norm_num
  rw [DVal.fmodQ, truncQ_eq_ceil _ hq, hceil]
  norm_num

/-- `ratSqrt` is exact on the square of a nonnegative rational. -/
theorem ratSqrt_mul_self (a : ℚ) (h : 0 ≤ a) : DVal.ratSqrt (a * a) = a := by
  have h1 : (a * a).num = a.num * a.num := Rat.mul_self_num a
  have h2 : (a * a).den = a.den * a.den := Rat.mul_self_den a
  have hn : 0 ≤ a.num := Rat.num_nonneg.mpr h
  have hcast : a.num = (a.num.toNat : ℤ) := (Int.toNat_of_nonneg hn).symm
  have h3 : (a.num * a.num).toNat = a.num.toNat * a.num.toNat := by
    rw [hcast]
    exact_mod_cast rfl
  rw [DVal.ratSqrt, h1, h2, h3, Nat.sqrt_eq, Nat.sqrt_eq]
  have h4 : ((a.num.toNat : ℕ) : ℚ) = ((a.num : ℤ) : ℚ) := by
    exact_mod_cast congrArg (fun z : ℤ => (z : ℚ)) (Int.toNat_of_nonneg hn)
  rw [h4]
  exact Rat.num_div_den a

/-- Doubling a unit and halving it again is the identity (every exponent
of `SIUnitAdd U U` is even). -/
theorem pow2_unit_halves {n : ℕ} (U : SIUnit n) :
    SIUnitMul (SIUnitDiv (SIUnitAdd U U) 2) 2 = SIUnitAdd U U := by
  funext i
  simp only [SIUnitMul, SIUnitDiv, SIUnitAdd]
  omega

/-- Transporting a `Scalar` along an equality of units keeps its
magnitude. -/
theorem Scalar.cast_value {n : ℕ} {u v : SIUnit n} (e : u = v) (x : Scalar u) :
    (e ▸ x : Scalar v).value = x.value := by
  cases e
  rfl

/-- The magnitude computed by the `sqrt` free function. -/
theorem sqrtS_value {n : ℕ} {U : SIUnit n} (x : Scalar U)
    (h : SIUnitMul (SIUnitDiv U 2) 2 = U) :
    (sqrtS x h).value = x.value.sqrtD := by
  unfold sqrtS sqrtHelper
  rw [Scalar.cast_value]

/-! ### The claims -/

/-- C1: for every pair of distinct units `U1 ≠ U2`, addition, subtraction,
every comparison and `mod` between `Scalar<U1>` and `Scalar<U2>` are
rejected by overload resolution (their signatures only accept the same
unit), so such an expression never type-checks and can never execute;
among the binary operations only `*` and `/` accept mixed units, with
result units `Add(U1,U2)` and `Subtract(U1,U2)`. -/
theorem C1_mixed_unit_rejected {n : ℕ} (u v : SIUnit n) (h : u ≠ v) :
    addAccepts u v = none ∧ subAccepts u v = none ∧ cmpAccepts u v = false ∧
    modAccepts u v = none ∧ mulAccepts u v = some (SIUnitAdd u v) ∧
    divAccepts u v = some (SIUnitSub u v) := by
  have h2 : v ≠ u := Ne.symm h
  refine ⟨?_, ?_, ?_, ?_, rfl, rfl⟩ <;>
    simp [addAccepts, subAccepts, cmpAccepts, modAccepts, h2]

/-- Witness for C1 at the concrete distinct units `lenU` and `timU`. -/
theorem C1_mixed_unit_rejected_witness :
    lenU ≠ timU ∧
    (addAccepts lenU timU = none ∧ subAccepts lenU timU = none ∧
     cmpAccepts lenU timU = false ∧ modAccepts lenU timU = none ∧
     mulAccepts lenU timU = some (SIUnitAdd lenU timU) ∧
     divAccepts lenU timU = some (SIUnitSub lenU timU)) :=
  ⟨by decide, C1_mixed_unit_rejected lenU timU (by decide)⟩

/-- C2: for all units `U1, U2` and finite magnitudes `a, b`,
`Scalar<U1>(a) * Scalar<U2>(b)` is accepted with result unit
`Add(U1,U2)` and its magnitude is exactly `a * b`. -/
theorem C2_mul_closure {n : ℕ} (u v : SIUnit n) (x y : DVal)
    (hx : x.isFinite = true) (hy : y.isFinite = true) :
    mulAccepts u v = some (SIUnitAdd u v) ∧
    ((⟨x⟩ : Scalar u).mul (⟨y⟩ : Scalar v)).value = DVal.fin (x.toRat * y.toRat) := by
  refine ⟨rfl, ?_⟩
  cases x <;> cases y <;> simp_all [Scalar.mul, DVal.mul, DVal.isFinite, DVal.toRat]

/-- Witness for C2 at `lenU`, `timU`, magnitudes `2` and `3`. -/
theorem C2_mul_closure_witness :
    (DVal.fin 2).isFinite = true ∧ (DVal.fin 3).isFinite = true ∧
    (mulAccepts lenU timU = some (SIUnitAdd lenU timU) ∧
     ((⟨DVal.fin 2⟩ : Scalar lenU).mul (⟨DVal.fin 3⟩ : Scalar timU)).value =
       DVal.fin ((DVal.fin 2).toRat * (DVal.fin 3).toRat)) :=
  ⟨rfl, rfl, C2_mul_closure lenU timU (DVal.fin 2) (DVal.fin 3) rfl rfl⟩

/-- C3 counterexample: `+∞` is a double that is non-zero
(`isZero` is false on it), yet `Scalar<U>(+∞) / Scalar<U>(+∞)` has
magnitude NaN, not `1`; so the claim fails as stated for non-finite
non-zero magnitudes. -/
theorem C3_counterexample :
    (⟨DVal.posInf⟩ : Scalar lenU).isZero = false ∧
    ((⟨DVal.posInf⟩ : Scalar lenU).div (⟨DVal.posInf⟩ : Scalar lenU)).value =
      DVal.nan ∧
    DVal.nan ≠ DVal.fin 1 :=
  ⟨rfl, rfl, by decide⟩

/-- C3 (amended): for every unit `U` and every *finite* non-zero
magnitude `a`, `Scalar<U>(a) / Scalar<U>(a)` is accepted, its unit
`Subtract(U,U)` is the dimensionless unit, and its magnitude is `1`. -/
theorem C3_div_self {n : ℕ} (U : SIUnit n) (a : ℚ) (h : a ≠ 0) :
    divAccepts U U = some (SIUnitSub U U) ∧
    SIUnitSub U U = SIUnit.dimensionless n ∧
    ((⟨DVal.fin a⟩ : Scalar U).div (⟨DVal.fin a⟩ : Scalar U)).value =
      DVal.fin 1 := by
  refine ⟨rfl, funext fun i => sub_self _, ?_⟩
  simp [Scalar.div, DVal.div, DVal.isZeroB, DVal.isFinite, DVal.toRat, h,
    div_self h]

/-- Witness for C3 (amended) at `lenU` with magnitude `2`. -/
theorem C3_div_self_witness :
    (2 : ℚ) ≠ 0 ∧
    (divAccepts lenU lenU = some (SIUnitSub lenU lenU) ∧
     SIUnitSub lenU lenU = SIUnit.dimensionless 3 ∧
     ((⟨DVal.fin 2⟩ : Scalar lenU).div (⟨DVal.fin 2⟩ : Scalar lenU)).value =
       DVal.fin 1) :=
  ⟨by decide, C3_div_self lenU 2 (by decide)⟩

/-- A magnitude that is `≤`-above `+0.0` is `fin q` with `0 ≤ q`,
`negZero` or `posInf`. -/
theorem nonneg_cases (x : DVal) (hx : (DVal.fin 0).leB x = true) :
    (∃ q : ℚ, x = DVal.fin q ∧ 0 ≤ q) ∨ x = DVal.negZero ∨ x = DVal.posInf := by
  cases x with
  | fin q =>
    refine Or.inl ⟨q, rfl, ?_⟩
    by_contra hc
    push_neg at hc
    have h1 : ¬ (0 : ℚ) < q := not_lt.mpr hc.le
    simp [DVal.leB, DVal.cmp, DVal.toRat, h1, hc] at hx
  | negZero => exact Or.inr (Or.inl rfl)
  | posInf => exact Or.inr (Or.inr rfl)
  | negInf => simp [DVal.leB, DVal.cmp] at hx
  | nan => simp [DVal.leB, DVal.cmp] at hx

/-- `ratSqrt 0 = 0`. -/
theorem ratSqrt_zero : DVal.ratSqrt 0 = 0 := by
  simpa using ratSqrt_mul_self 0 le_rfl

/-- The square root of the square of a nonnegative magnitude compares
equal to the magnitude itself. -/
theorem sqrtD_mul_self_eqB (x : DVal) (hx : (DVal.fin 0).leB x = true) :
    DVal.eqB (DVal.mul x x).sqrtD x = true := by
  rcases nonneg_cases x hx with ⟨q, rfl, hq⟩ | rfl | rfl
  · have h1 : ¬ q * q < 0 := not_lt.mpr (mul_self_nonneg q)
    simp [DVal.mul, DVal.sqrtD, DVal.toRat, DVal.eqB, DVal.cmp, h1,
      ratSqrt_mul_self q hq, lt_irrefl]
  · have h1 : ¬ (0 : ℚ) * 0 < 0 := by norm_num
    simp [DVal.mul, DVal.sqrtD, DVal.toRat, DVal.eqB, DVal.cmp, h1,
      ratSqrt_zero, lt_irrefl]
  · rfl

/-- `abs()` leaves a magnitude that is `≥ +0.0` unchanged. -/
theorem abs_value_of_nonneg {n : ℕ} {U : SIUnit n} (x : DVal)
    (hx : (DVal.fin 0).leB x = true) :
    ((⟨x⟩ : Scalar U).abs).value = x := by
  rcases nonneg_cases x hx with ⟨q, rfl, hq⟩ | rfl | rfl
  · have h1 : ¬ q < 0 := not_lt.mpr hq
    simp [Scalar.abs, DVal.ltB, DVal.cmp, DVal.toRat, h1]
  · simp [Scalar.abs, DVal.ltB, DVal.cmp, DVal.toRat, lt_irrefl]
  · rfl

/-- C4: for every even-exponent unit `U` and every non-negative magnitude
`a`, `sqrt(Scalar<U>(a).pow2())` has unit
`ScaleDown(ScaleUp(U,2), 2) = U` and compares equal (`==`) both to
`Scalar<U>(a)` itself and to `Scalar<U>(a).abs()` (magnitude `|a| = a`). -/
theorem C4_sqrt_pow2_roundtrip {n : ℕ} (U : SIUnit n) (_hU : ∀ i, 2 ∣ U i)
    (x : DVal) (hx : (DVal.fin 0).leB x = true) :
    SIUnitDiv (SIUnitAdd U U) 2 = U ∧
    DVal.eqB (sqrtS ((⟨x⟩ : Scalar U).pow2) (pow2_unit_halves U)).value x = true ∧
    DVal.eqB (sqrtS ((⟨x⟩ : Scalar U).pow2) (pow2_unit_halves U)).value
      ((⟨x⟩ : Scalar U).abs).value = true := by
  refine ⟨funext fun i => by simp only [SIUnitDiv, SIUnitAdd]; omega, ?_, ?_⟩
  · rw [sqrtS_value]
    exact sqrtD_mul_self_eqB x hx
  · rw [sqrtS_value, abs_value_of_nonneg x hx]
    exact sqrtD_mul_self_eqB x hx

/-- Witness for C4 at the even unit `areaU` with magnitude `3`. -/
theorem C4_sqrt_pow2_roundtrip_witness :
    (∀ i, 2 ∣ areaU i) ∧ (DVal.fin 0).leB (DVal.fin 3) = true ∧
    (SIUnitDiv (SIUnitAdd areaU areaU) 2 = areaU ∧
     DVal.eqB (sqrtS ((⟨DVal.fin 3⟩ : Scalar areaU).pow2)
       (pow2_unit_halves areaU)).value (DVal.fin 3) = true ∧
     DVal.eqB (sqrtS ((⟨DVal.fin 3⟩ : Scalar areaU).pow2)
       (pow2_unit_halves areaU)).value
       ((⟨DVal.fin 3⟩ : Scalar areaU).abs).value = true) :=
  ⟨by decide, by decide, C4_sqrt_pow2_roundtrip areaU (by decide) (DVal.fin 3) (by decide)⟩

/-- C5 counterexample: NaN is a `Scalar<U>` value with `NaN ≥ 0` false,
yet `inf(NaN)` is `infP()`, not `infN()` as the claim's "otherwise"
branch demands (`dir.value < 0` is false on NaN). -/
theorem C5_counterexample :
    Scalar.infDir (⟨DVal.nan⟩ : Scalar lenU) = Scalar.infP ∧
    DVal.geB DVal.nan (DVal.fin 0) = false ∧
    (Scalar.infP : Scalar lenU) ≠ Scalar.infN :=
  ⟨rfl, rfl, by decide⟩

/-- C5 (amended): `inf(dir)` returns `infN()` exactly when `dir < 0`, and
`infP()` otherwise — i.e. when `dir ≥ 0` *or* `dir` is NaN; in
particular `inf(Scalar<U>(-5)) = infN()`, `inf(Scalar<U>(0)) = infP()`
and `inf(Scalar<U>(5)) = infP()`. -/
theorem C5_infDir_amended {n : ℕ} (U : SIUnit n) (d : DVal) :
    (Scalar.infDir (⟨d⟩ : Scalar U) = Scalar.infP ↔
      (d.geB (DVal.fin 0) = true ∨ d.neB d = true)) ∧
    (Scalar.infDir (⟨d⟩ : Scalar U) = Scalar.infN ↔
      d.ltB (DVal.fin 0) = true) ∧
    Scalar.infDir (⟨DVal.fin (-5)⟩ : Scalar U) = Scalar.infN ∧
    Scalar.infDir (⟨DVal.fin 0⟩ : Scalar U) = Scalar.infP ∧
    Scalar.infDir (⟨DVal.fin 5⟩ : Scalar U) = Scalar.infP := by
  refine ⟨?_, ?_, rfl, rfl, rfl⟩ <;>
  · cases d with
    | fin q =>
      rcases lt_trichotomy q 0 with h | h | h
      · simp [Scalar.infDir, Scalar.infP, Scalar.infN, DVal.ltB, DVal.geB,
          DVal.neB, DVal.eqB, DVal.cmp, DVal.toRat, Scalar.mk.injEq, h,
          asymm h, lt_irrefl]
      · simp [Scalar.infDir, Scalar.infP, Scalar.infN, DVal.ltB, DVal.geB,
          DVal.neB, DVal.eqB, DVal.cmp, DVal.toRat, Scalar.mk.injEq, h,
          lt_irrefl]
      · simp [Scalar.infDir, Scalar.infP, Scalar.infN, DVal.ltB, DVal.geB,
          DVal.neB, DVal.eqB, DVal.cmp, DVal.toRat, Scalar.mk.injEq, h,
          asymm h, lt_irrefl]
    | negZero =>
      simp [Scalar.infDir, Scalar.infP, Scalar.infN, DVal.ltB, DVal.geB,
        DVal.neB, DVal.eqB, DVal.cmp, DVal.toRat, Scalar.mk.injEq, lt_irrefl]
    | posInf =>
      simp [Scalar.infDir, Scalar.infP, Scalar.infN, DVal.ltB, DVal.geB,
        DVal.neB, DVal.eqB, DVal.cmp, Scalar.mk.injEq]
    | negInf =>
      simp [Scalar.infDir, Scalar.infP, Scalar.infN, DVal.ltB, DVal.geB,
        DVal.neB, DVal.eqB, DVal.cmp, Scalar.mk.injEq]
    | nan =>
      simp [Scalar.infDir, Scalar.infP, Scalar.infN, DVal.ltB, DVal.geB,
        DVal.neB, DVal.eqB, DVal.cmp, Scalar.mk.injEq]

/-- C6: `Scalar<U>::nan().isNaN()` is true; `nan() == nan()` is false;
every relational comparison with a NaN operand (on either side) is
false; `!=` with NaN is true; and `isNaN()` is true exactly when the
magnitude compares unequal to itself. -/
theorem C6_nan_semantics {n : ℕ} (U : SIUnit n) (x : DVal) :
    (Scalar.nan : Scalar U).isNaN = true ∧
    Scalar.eq (Scalar.nan : Scalar U) Scalar.nan = false ∧
    Scalar.lt (⟨x⟩ : Scalar U) Scalar.nan = false ∧
    Scalar.lt (Scalar.nan : Scalar U) ⟨x⟩ = false ∧
    Scalar.gt (⟨x⟩ : Scalar U) Scalar.nan = false ∧
    Scalar.gt (Scalar.nan : Scalar U) ⟨x⟩ = false ∧
    Scalar.le (⟨x⟩ : Scalar U) Scalar.nan = false ∧
    Scalar.le (Scalar.nan : Scalar U) ⟨x⟩ = false ∧
    Scalar.ge (⟨x⟩ : Scalar U) Scalar.nan = false ∧
    Scalar.ge (Scalar.nan : Scalar U) ⟨x⟩ = false ∧
    Scalar.ne (⟨x⟩ : Scalar U) Scalar.nan = true ∧
    Scalar.ne (Scalar.nan : Scalar U) ⟨x⟩ = true ∧
    ((⟨x⟩ : Scalar U).isNaN = true ↔
      Scalar.eq (⟨x⟩ : Scalar U) (⟨x⟩ : Scalar U) = false) := by
  cases x <;>
    simp [Scalar.isNaN, Scalar.eq, Scalar.ne, Scalar.lt, Scalar.gt, Scalar.le,
      Scalar.ge, Scalar.nan, DVal.neB, DVal.eqB, DVal.ltB, DVal.gtB, DVal.leB,
      DVal.geB, DVal.cmp, lt_irrefl]

/-- C7: `mod(divisor)` on finite magnitudes with a nonzero divisor is
accepted only at the same unit (result unit unchanged) and computes the
C `fmod` remainder, whose sign follows the dividend; in particular
`fmod(-7, 3) = -1`, not `2`. -/
theorem C7_mod_sign {n : ℕ} (U : SIUnit n) (a b : ℚ) (hb : b ≠ 0) :
    modAccepts U U = some U ∧
    ((⟨DVal.fin a⟩ : Scalar U).mod (⟨DVal.fin b⟩ : Scalar U)).value =
      DVal.fin (DVal.fmodQ a b) ∧
    (0 ≤ a → 0 ≤ DVal.fmodQ a b) ∧
    (a ≤ 0 → DVal.fmodQ a b ≤ 0) ∧
    DVal.fmodQ (-7) 3 = -1 := by
  refine ⟨by simp [modAccepts], ?_, fun h => fmodQ_nonneg a b hb h,
    fun h => fmodQ_nonpos a b hb h, fmodQ_neg_seven_three⟩
  simp [Scalar.mod, DVal.fmod, DVal.isZeroB, DVal.isFinite, DVal.toRat, hb]

/-- Witness for C7 at `lenU` with dividend `-7` and divisor `3`. -/
theorem C7_mod_sign_witness :
    (3 : ℚ) ≠ 0 ∧
    (modAccepts lenU lenU = some lenU ∧
     ((⟨DVal.fin (-7)⟩ : Scalar lenU).mod (⟨DVal.fin 3⟩ : Scalar lenU)).value =
       DVal.fin (DVal.fmodQ (-7) 3) ∧
     (0 ≤ (-7 : ℚ) → 0 ≤ DVal.fmodQ (-7) 3) ∧
     ((-7 : ℚ) ≤ 0 → DVal.fmodQ (-7) 3 ≤ 0) ∧
     DVal.fmodQ (-7) 3 = -1) :=
  ⟨by decide, C7_mod_sign lenU (-7) 3 (by decide)⟩

/-- C8 counterexample: `pi()` is a static member of every instantiation
`Scalar<U1>`, so it is available at the non-dimensionless unit `lenU`
(with the full π magnitude), contradicting "available only as a
dimensionless Scalar". -/
theorem C8_counterexample :
    lenU ≠ SIUnit.dimensionless 3 ∧
    (Scalar.pi : Scalar lenU).value = DVal.fin Scalar.piLit :=
  ⟨by decide, rfl⟩

/-- C8 (amended): `pi()` is available at *every* unit `U` (the template
defines it for all instantiations) and returns the double-precision
literal of π, approximately `3.14159265358979323846`. -/
theorem C8_pi_amended {n : ℕ} (U : SIUnit n) :
    (Scalar.pi : Scalar U).value = DVal.fin Scalar.piLit ∧
    |Scalar.piLit - 3.14159265358979323846| < 1 / 10 ^ 17 :=
  ⟨rfl, by rw [abs_sub_lt_iff]; constructor <;> norm_num [Scalar.piLit]⟩

/-- C9: a default-constructed `Scalar<U>()` has magnitude `0`: it
compares equal (`==`) to `Scalar<U>::zero()` and `isZero()` on it is
true. -/
theorem C9_default_is_zero {n : ℕ} (U : SIUnit n) :
    (Scalar.mkDefault : Scalar U).value = DVal.fin 0 ∧
    Scalar.eq (Scalar.mkDefault : Scalar U) Scalar.zero = true ∧
    (Scalar.mkDefault : Scalar U).isZero = true :=
  ⟨rfl, rfl, rfl⟩

/-- C10: `isZero()` is true on `Scalar<U>(-0.0)` because the check is the
exact floating comparison `value == 0` and `-0.0 == 0`; correspondingly
the boolean conversion of `Scalar<U>(-0.0)` is false. -/
theorem C10_negZero_is_zero {n : ℕ} (U : SIUnit n) :
    (⟨DVal.negZero⟩ : Scalar U).isZero = true ∧
    DVal.eqB DVal.negZero (DVal.fin 0) = true ∧
    (⟨DVal.negZero⟩ : Scalar U).toBool = false :=
  ⟨rfl, rfl, rfl⟩

end PutkaRTS
